import Mathlib

/-!
Shallow embedding of `src/bin2mif.c` (the later variant of the file: the one
with `getopt_long`, `file_size` and the corrected EOF check), together with
theorems settling the frozen claims about it.

Modelling conventions:
* C `byte` values are `Nat` (with `< 256` hypotheses where the byte range
  matters); buffers are `List Nat`; machine arithmetic here never overflows
  the C types at the values involved, so plain `Nat`/`Int` arithmetic is used.
* The underlying `read(2)` calls are modelled by a script
  `List (Option (List Nat))`: each call to `read` consumes the next entry,
  `none` meaning the read reports an error (returns -1) and `some chunk`
  meaning it returns the bytes `chunk` (truncated to the requested length,
  since `read` never returns more than asked).  An exhausted script models
  end of file: every further read returns zero bytes.
* `dprintf` to the output descriptor is modelled as an infallible append to
  an output `String` (no claim under verification concerns sink failures).
* The uninitialised C stack buffers (`buffer`, `put_aside_buffer`) are
  modelled as explicit parameters or zero-filled lists; theorems that depend
  on indeterminate contents quantify over them or note the instantiation.
-/

namespace Bin2Mif

/-- `#define INPUT_BUFFER_SIZE 128` (words). -/
def INPUT_BUFFER_SIZE : Nat := 128

/-- `memcpy(base + off, src, src.length)`: overwrite `l` starting at
offset `off` with the bytes of `src`. -/
def writeAt (l : List Nat) (off : Nat) (src : List Nat) : List Nat :=
  l.take off ++ src ++ l.drop (off + src.length)

/-- Embedding of `read_aligned` (src/bin2mif.c:386-406).  Inputs: the buffer
capacity in words, the word size in bytes, the result of the single
underlying `read` call, the destination buffer contents, the `put_aside`
buffer contents and `*remainder_len`.  Returns `none` when the underlying
read fails (the C function returns -1 before touching `*remainder_len`),
otherwise `some (words_read, new buffer contents, new *remainder_len)`.
The final `memcpy(dest + nbytes - *remainder_len, put_aside, *remainder_len)`
of the C code is reproduced exactly as written: it copies `put_aside` INTO
the buffer (note `dest` was advanced by the old remainder when a carry was
spliced in); `put_aside` itself is never written. -/
def read_aligned (nwords word_size : Nat) (readResult : Option (List Nat))
    (buffer put_aside : List Nat) (remainder_len : Nat) :
    Option (Nat × List Nat × Nat) :=
  let nbytes := nwords * word_size
  let buf1 := if 0 < remainder_len then writeAt buffer 0 (put_aside.take remainder_len)
              else buffer
  let d := if 0 < remainder_len then remainder_len else 0
  match readResult with
  | none => none
  | some chunk =>
    let raw := chunk.take (nbytes - remainder_len)
    let buf2 := writeAt buf1 d raw
    let bytes_read := remainder_len + raw.length
    let words_read := bytes_read / word_size
    let rem2 := bytes_read % word_size
    let buf3 := writeAt buf2 (d + (nbytes - rem2)) (put_aside.take rem2)
    some (words_read, buf3, rem2)

/-- Loop of `num_len` (src/bin2mif.c:408-414), with an explicit fuel bound on
the iteration count.  The C loop `while (num > 0) { num /= base; ++len; }`
performs at most `num` iterations for any `base ≥ 2` (every call site uses
base 16), so calling with fuel `num` computes exactly the C loop. -/
def numLenGo (base : Nat) : Nat → Nat → Nat → Nat
  | 0, _, len => len
  | fuel + 1, num, len => if num = 0 then len else numLenGo base fuel (num / base) (len + 1)

/-- `num_len` (src/bin2mif.c:408-414): `len = 1; num /= base; while (num > 0) ...`. -/
def num_len (num : Nat) (base : Nat) : Nat :=
  numLenGo base num (num / base) 1

/-- Digit-accumulation loop of `printf`-style lowercase hex rendering
(`%llx`), fuel-bounded like `numLenGo`: at most `num` divisions by 16 are
needed to exhaust `num`. -/
def hexStrGo : Nat → Nat → List Char → List Char
  | 0, _, acc => acc
  | fuel + 1, num, acc =>
    if num = 0 then acc else hexStrGo fuel (num / 16) (Nat.digitChar (num % 16) :: acc)

/-- Minimal lowercase hexadecimal rendering of `n` (what `%llx` prints:
at least one digit, no leading zeros). -/
def hexStr (n : Nat) : String :=
  if n = 0 then "0" else String.mk (hexStrGo n n [])

/-- Zero-pad `s` on the left to width `w` (never truncates). -/
def padZero (s : String) (w : Nat) : String :=
  String.mk (List.replicate (w - s.length) '0') ++ s

/-- `dprintf(fd, "%0*llx", w, n)`: `n` in lowercase hex, zero-padded to at
least `w` digits, never truncated. -/
def fmtHex (n : Nat) (w : Nat) : String :=
  padZero (hexStr n) w

/-- `dprintf(fd, "%02x", b)`: one byte as a zero-padded hex pair. -/
def hexPair (b : Nat) : String :=
  fmtHex b 2

/-- Inner byte loop of `generate_mif_content` (src/bin2mif.c:487-495):
`for (short byte_idx = word_size - 1; byte_idx >= 0; --byte_idx)` printing
`"%02x"` for each byte and `"%02x;\n"` for byte index 0.  The second
argument is one more than the first index printed (the loop prints indices
`word_size - 1` down to `0`); with second argument `0` the loop body never
runs, exactly as in C when `word_size = 0`. -/
def wordFieldFrom (w : List Nat) : Nat → String
  | 0 => ""
  | i + 1 => hexPair (w.getD i 0) ++ (if i = 0 then ";\n" else "") ++ wordFieldFrom w i

/-- Row `word_idx` of the two-dimensional C buffer `byte buffer[nwords][ws]`,
i.e. the `ws` bytes starting at flat offset `word_idx * ws`. -/
def wordAt (ws idx : Nat) (buf : List Nat) : List Nat :=
  (buf.drop (idx * ws)).take ws

/-- The first `w` complete words currently in the buffer, in stream order. -/
def words_of (ws w : Nat) (buf : List Nat) : List (List Nat) :=
  (List.range w).map (fun i => wordAt ws i buf)

/-- Driver that repeatedly calls `read_aligned` and collects the completed
words, in order, exactly as `generate_mif_content`'s cursor consumes them:
each fill contributes the `words_read` leading words of the refilled buffer.
It stops (like the emitter's EOF check) when a fill yields zero words with
zero remainder, and returns `none` if a fill reports a read error.  `fuel`
bounds the number of fill calls. -/
def read_all (nwords ws : Nat) : Nat → List (Option (List Nat)) → List Nat → List Nat →
    Nat → List (List Nat) → Option (List (List Nat))
  | 0, _, _, _, _, acc => some acc
  | fuel + 1, script, buffer, pa, rem, acc =>
    match read_aligned nwords ws (script.headD (some [])) buffer pa rem with
    | none => none
    | some (w, buf2, rem2) =>
      if w = 0 ∧ rem2 = 0 then some acc
      else read_all nwords ws fuel script.tail buf2 pa rem2 (acc ++ words_of ws w buf2)

/-- `word_size = width / 8` as computed at src/bin2mif.c:450 — the only
place `width` is ever turned into a byte count; no code checks that `width`
is a positive multiple of 8. -/
def content_word_size (width : Nat) : Nat :=
  width / 8

/-- Loop of `generate_mif_content` (src/bin2mif.c:460-498).  One recursive
step per loop iteration (`fuel` is the number of addresses still to emit,
so the loop runs while `addr < depth` with `depth = addr + fuel`).  State:
the read script, the buffer and `put_aside` contents, `remainder_len`,
`words_read` (an `Int`: the C code can drive it negative by decrementing it
from 0 when a fill returns zero words with a nonzero remainder), `word_idx`
and the output accumulated so far.  Branches, in source order: on
`words_read == 0` reset `word_idx` and refill, returning `addr` if the fill
fails; then the (corrected-variant) check `words_read == 0 &&
remainder_len == 0` returns `addr`; otherwise one record is written and
`word_idx`/`words_read` are stepped.  When `words_read ≠ 0` on entry that
check is necessarily false, so the non-refill branch emits directly. -/
def genLoop (ws nwords aw : Nat) : Nat → Nat → List (Option (List Nat)) →
    List Nat → List Nat → Nat → Int → Nat → String → String × Int
  | 0, addr, _, _, _, _, _, _, out => (out, (addr : Int))
  | fuel + 1, addr, script, buffer, pa, rem, words_read, word_idx, out =>
    if words_read = 0 then
      match read_aligned nwords ws (script.headD (some [])) buffer pa rem with
      | none => (out, (addr : Int))
      | some (w, buf2, rem2) =>
        if w = 0 ∧ rem2 = 0 then (out, (addr : Int))
        else
          genLoop ws nwords aw fuel (addr + 1) script.tail buf2 pa rem2
            ((w : Int) - 1) 1
            (out ++ fmtHex addr aw ++ " : " ++ wordFieldFrom (wordAt ws 0 buf2) ws)
    else
      genLoop ws nwords aw fuel (addr + 1) script buffer pa rem
        (words_read - 1) (word_idx + 1)
        (out ++ fmtHex addr aw ++ " : " ++ wordFieldFrom (wordAt ws word_idx buffer) ws)

/-- `generate_mif_content` (src/bin2mif.c:448-501) for a resolved
`depth ≥ 0`.  Computes `word_size = width / 8` and
`addr_repr_width = num_len(depth - 1, 16)` once, then runs the loop with
`words_read = 0`, `remainder_len = 0`, `word_idx = 0`.  The indeterminate
stack buffers are instantiated zero-filled here (`buffer` and
`put_aside_buffer` are uninitialised locals in C); theorems whose truth
depends on buffer contents quantify over the state via `genLoop` instead. -/
def generate_mif_content (script : List (Option (List Nat))) (depth : Nat)
    (width : Nat) : String × Int :=
  let ws := content_word_size width
  genLoop ws INPUT_BUFFER_SIZE (num_len (depth - 1) 16) depth 0 script
    (List.replicate (INPUT_BUFFER_SIZE * ws) 0) (List.replicate ws 0) 0 0 0 ""

/-- Depth-resolution and validation prefix of `generate_mif`
(src/bin2mif.c:503-526).  `in_file_size` encodes `file_size(in_fd)`:
`-1` system error, `-2` not a regular file, otherwise the size in bytes.
`none` means the function returns -1 before writing any output; otherwise
the resolved depth.  (The "file is too short" branch only emits a warning
on stderr and does not change the result, so it is not modelled.) -/
def generate_mif_resolve (depth : Int) (in_file_size : Int) : Option Int :=
  if in_file_size = -1 then none
  else if in_file_size = -2 ∧ depth < 0 then none
  else if depth < 0 then some in_file_size
  else some depth

/-- `generate_mif_header` (src/bin2mif.c:434-446): the exact text written. -/
def mif_header (depth : Int) (width : Nat) : String :=
  "DEPTH = " ++ toString depth ++ ";\n" ++ "WIDTH = " ++ toString width ++ ";\n" ++
  "ADDRESS_RADIX = HEX;\n" ++ "DATA_RADIX = HEX;\n" ++ "CONTENT\n" ++ "BEGIN\n"

/-- `generate_mif` (src/bin2mif.c:503-542): resolve the depth (returning
`("", -1)` — no output, result -1 — when resolution fails), write the
header, run the emitter, and append `"END;\n"` unless the emitter reported
a negative count (the resolved depth is never negative, so `toNat` is
faithful). -/
def generate_mif (script : List (Option (List Nat))) (in_file_size depth : Int)
    (width : Nat) : String × Int :=
  match generate_mif_resolve depth in_file_size with
  | none => ("", -1)
  | some d =>
    let res := generate_mif_content script d.toNat width
    if res.2 < 0 then (mif_header d width ++ res.1, -1)
    else (mif_header d width ++ res.1 ++ "END;\n", res.2)

/-- `safe_close` (src/bin2mif.c:377-384) for a non-null pointer: the `Int`
is the pointed-to descriptor.  Returns (return value, new stored
descriptor, ghost flag recording whether `close(2)` was actually invoked).
`closeOk fd` models whether `close(fd)` succeeds. -/
def safe_close (closeOk : Int → Bool) (fd : Int) : Bool × Int × Bool :=
  if fd = -1 then (true, fd, false) else (closeOk fd, -1, true)

/-- The tail of `main` after `generate_mif` returns (src/bin2mif.c:612-638),
for the later variant: on `words_written != depth` both descriptors are
closed and, only when `words_written < 0`, the process exits with
`GENRATOR_FAILURE` (6); otherwise execution falls through to the cleanup
section, where `in_filename` is never NULL (it defaults to "-") and
`out_filename` is non-null iff `-o` was given (`out_named`); a failing
cleanup close sets the return value to `FILE_CLOSE_FAILURE` (5). -/
def main_after_generate (words_written depth : Int) (in_fd0 out_fd0 : Int)
    (out_named : Bool) (closeOk : Int → Bool) : Int :=
  let fds :=
    if words_written ≠ depth then
      ((safe_close closeOk in_fd0).2.1, (safe_close closeOk out_fd0).2.1)
    else (in_fd0, out_fd0)
  if words_written ≠ depth ∧ words_written < 0 then 6
  else
    let c1 := safe_close closeOk fds.1
    let r1 : Int := if c1.1 then 0 else 5
    let c2 := safe_close closeOk fds.2
    if out_named ∧ c2.1 = false then 5 else r1

/-- The range check of `str_to_byte` (src/bin2mif.c:351-361) applied to an
already-parsed number: `num < 0 || num > UINT8_MAX` is rejected, anything
else is accepted as a `byte`.  This is the only validation ever applied to
the `--width` argument. -/
def str_to_byte_check (num : Int) : Option Nat :=
  if num < 0 ∨ 255 < num then none else some num.toNat

/-- Spec-side definition, following the words of the specification for the
word-value field (§4.3): "concatenates, for each byte from the last index
to the first, a two-digit zero-padded hex pair".  Declared only to be
compared with the source-derived `wordFieldFrom`. -/
def format_word_bytes_spec : List Nat → String
  | [] => ""
  | b :: rest => format_word_bytes_spec rest ++ hexPair b

/-! Helper lemmas about the digit-length and formatting functions. -/

theorem numLenGo_eq (fuel : Nat) : ∀ (num len : Nat), num ≤ fuel →
    numLenGo 16 fuel num len = (if num = 0 then 0 else Nat.log 16 num + 1) + len := by
  induction fuel with
  | zero =>
    intro num len h
    have : num = 0 := Nat.le_zero.mp h
    simp [numLenGo, this]
  | succ f ih =>
    intro num len h
    by_cases h0 : num = 0
    · simp [numLenGo, h0]
    · have hlt : num / 16 < num := Nat.div_lt_self (Nat.pos_of_ne_zero h0) (by norm_num)
      have hdiv : num / 16 ≤ f := by omega
      rw [numLenGo, if_neg h0, ih (num / 16) (len + 1) hdiv]
      by_cases h16 : num < 16
      · rw [Nat.div_eq_of_lt h16]
        simp [h0, Nat.log_of_lt h16]
        omega
      · have hge : 16 ≤ num := le_of_not_lt h16
        have hpos : 0 < num / 16 := Nat.div_pos hge (by norm_num)
        have hlog : 0 < Nat.log 16 num := Nat.log_pos (by norm_num) hge
        rw [Nat.log_div_base, if_neg (Nat.pos_iff_ne_zero.mp hpos), if_neg h0]
        omega

theorem num_len_eq_log (n : Nat) : num_len n 16 = Nat.log 16 n + 1 := by
  rw [num_len, numLenGo_eq n (n / 16) 1 (Nat.div_le_self n 16)]
  by_cases h16 : n < 16
  · rw [Nat.div_eq_of_lt h16]
    simp [Nat.log_of_lt h16]
  · have hge : 16 ≤ n := le_of_not_lt h16
    have hpos : 0 < n / 16 := Nat.div_pos hge (by norm_num)
    have hlog : 0 < Nat.log 16 n := Nat.log_pos (by norm_num) hge
    rw [Nat.log_div_base, if_neg (Nat.pos_iff_ne_zero.mp hpos)]
    omega

theorem hexStrGo_length (fuel : Nat) : ∀ (num : Nat) (acc : List Char), num ≤ fuel →
    (hexStrGo fuel num acc).length =
      (if num = 0 then 0 else Nat.log 16 num + 1) + acc.length := by
  induction fuel with
  | zero =>
    intro num acc h
    have : num = 0 := Nat.le_zero.mp h
    simp [hexStrGo, this]
  | succ f ih =>
    intro num acc h
    by_cases h0 : num = 0
    · simp [hexStrGo, h0]
    · have hlt : num / 16 < num := Nat.div_lt_self (Nat.pos_of_ne_zero h0) (by norm_num)
      have hdiv : num / 16 ≤ f := by omega
      rw [hexStrGo, if_neg h0, ih (num / 16) _ hdiv]
      by_cases h16 : num < 16
      · rw [Nat.div_eq_of_lt h16]
        simp [h0, Nat.log_of_lt h16]
        omega
      · have hge : 16 ≤ num := le_of_not_lt h16
        have hpos : 0 < num / 16 := Nat.div_pos hge (by norm_num)
        have hlog : 0 < Nat.log 16 num := Nat.log_pos (by norm_num) hge
        rw [Nat.log_div_base, if_neg (Nat.pos_iff_ne_zero.mp hpos), if_neg h0]
        simp
        omega

theorem hexStr_length (n : Nat) : (hexStr n).length = Nat.log 16 n + 1 := by
  by_cases h0 : n = 0
  · subst h0
    rw [hexStr, if_pos rfl, Nat.log_zero_right]
    rfl
  · rw [hexStr, if_neg h0]
    have := hexStrGo_length n n [] le_rfl
    simp only [List.length_nil, Nat.add_zero, if_neg h0] at this
    simpa [String.length_mk] using this

theorem hexStr_length_eq_num_len (n : Nat) : (hexStr n).length = num_len n 16 := by
  rw [hexStr_length, num_len_eq_log]

theorem padZero_length (s : String) (w : Nat) (h : s.length ≤ w) :
    (padZero s w).length = w := by
  rw [padZero, String.length_append, String.length_mk, List.length_replicate]
  omega

theorem fmtHex_length (n w : Nat) (h : (hexStr n).length ≤ w) :
    (fmtHex n w).length = w :=
  padZero_length _ _ h

theorem format_word_bytes_spec_concat (xs : List Nat) (b : Nat) :
    format_word_bytes_spec (xs ++ [b]) = hexPair b ++ format_word_bytes_spec xs := by
  induction xs with
  | nil => simp [format_word_bytes_spec, String.append_empty, String.empty_append]
  | cons x xs ih =>
    show format_word_bytes_spec (xs ++ [b]) ++ hexPair x =
      hexPair b ++ (format_word_bytes_spec xs ++ hexPair x)
    rw [ih, String.append_assoc]

theorem wordFieldFrom_take (w : List Nat) : ∀ i : Nat, i < w.length →
    wordFieldFrom w (i + 1) = format_word_bytes_spec (w.take (i + 1)) ++ ";\n" := by
  intro i
  induction i with
  | zero =>
    intro h
    have ht : w.take 1 = [w.getD 0 0] := by
      rw [List.take_succ, List.getElem?_eq_getElem h, List.getD_eq_getElem w 0 h]
      rfl
    simp [wordFieldFrom, ht, format_word_bytes_spec, String.append_empty,
      String.empty_append]
  | succ i ih =>
    intro h
    have hi : i < w.length := Nat.lt_of_succ_lt h
    have ht : w.take (i + 2) = w.take (i + 1) ++ [w.getD (i + 1) 0] := by
      rw [List.take_succ, List.getElem?_eq_getElem h, List.getD_eq_getElem w 0 h]
      rfl
    rw [wordFieldFrom, if_neg (Nat.succ_ne_zero i), ih hi, ht,
      format_word_bytes_spec_concat]
    simp [String.empty_append, String.append_assoc]

/-! Theorems settling the claims. -/

/-- C1: the claim asserts that feeding `read_aligned` the same bytes in
arbitrarily small underlying read chunks yields the same word sequence as
one large read.  The code violates this: with word size 2, input bytes
`[0x12, 0x34]` delivered as two 1-byte reads, the first fill leaves
remainder 1, and the second fill splices in a byte of the never-written
`put_aside` buffer (here its initial content, 0) instead of the saved
byte `0x12` — the final `memcpy` of `read_aligned` copies `put_aside`
into the buffer rather than the trailing remainder out.  A single large
read of the same two bytes yields `[[0x12, 0x34]]`. -/
theorem chunked_read_loses_byte :
    read_all 2 2 4 [some [18], some [52]] (List.replicate 4 0) [0, 0] 0 [] =
      some [[0, 52]] ∧
    read_all 2 2 4 [some [18, 52]] (List.replicate 4 0) [0, 0] 0 [] =
      some [[18, 52]] ∧
    (some [[0, 52]] : Option (List (List Nat))) ≠ some [[18, 52]] := by
  refine ⟨rfl, rfl, by decide⟩

/-- C2: on a successful fill with `word_size ≥ 1`, the returned word count
`k` and the updated carry length `r` satisfy `k * word_size + r = prior
carry + bytes actually read`, and `0 ≤ r < word_size` (the `r ≥ 0` half is
inherent in the `Nat` type).  The hypothesis bounds the underlying read
result by the requested length, which `read(2)` guarantees; word sizes
{1,2,4,8} and capacities {1,17,128} are instances of the quantifiers. -/
theorem read_aligned_carry_correct (nwords ws : Nat) (raw buffer pa : List Nat)
    (rem : Nat) (h1 : 1 ≤ ws) (h2 : raw.length ≤ nwords * ws - rem) :
    ∃ res : Nat × List Nat × Nat,
      read_aligned nwords ws (some raw) buffer pa rem = some res ∧
      res.1 * ws + res.2.2 = rem + raw.length ∧ res.2.2 < ws := by
  have ht : raw.take (nwords * ws - rem) = raw := List.take_of_length_le h2
  refine ⟨_, rfl, ?_, ?_⟩
  · show (rem + (raw.take (nwords * ws - rem)).length) / ws * ws +
        (rem + (raw.take (nwords * ws - rem)).length) % ws = rem + raw.length
    rw [ht, Nat.mul_comm, Nat.div_add_mod]
  · show (rem + (raw.take (nwords * ws - rem)).length) % ws < ws
    exact Nat.mod_lt _ (by omega)

/-- Witness for C2 at word size 4, capacity 17 words, prior carry 3,
underlying read returning 6 bytes: `2 * 4 + 1 = 3 + 6`. -/
theorem read_aligned_carry_correct_witness :
    ∃ res : Nat × List Nat × Nat,
      read_aligned 17 4 (some [9, 9, 9, 9, 9, 9]) (List.replicate 68 0)
        [1, 2, 3, 0] 3 = some res ∧
      res.1 * 4 + res.2.2 = 3 + 6 ∧ res.2.2 < 4 :=
  read_aligned_carry_correct 17 4 [9, 9, 9, 9, 9, 9] (List.replicate 68 0)
    [1, 2, 3, 0] 3 (by decide) (by decide)

/-- C3 counterexample: with depth unspecified (sentinel -1) and a regular
10-byte input, the Depth Resolver of `generate_mif` resolves depth to the
file size 10, not to `10 * 8 / 16 = 5` as the claim states for width 16
(the resolver never consults the width: `depth = in_file_size`). -/
theorem depth_resolver_counterexample :
    generate_mif_resolve (-1) 10 = some 10 ∧ (10 : Int) ≠ 10 * 8 / 16 := by
  refine ⟨rfl, by decide⟩

/-- C3 as amended: when depth is unspecified (negative sentinel) and the
input is a regular, size-determinable file, the resolved depth is the file
size in bytes (regardless of width); when the input is not size-determinable
(`file_size` = -2) and depth is unspecified, `generate_mif` fails with
result -1 before any output is written (output component empty). -/
theorem depth_resolver_uses_file_size :
    (∀ sz : Int, 0 ≤ sz → ∀ d : Int, d < 0 → generate_mif_resolve d sz = some sz) ∧
    (∀ d : Int, d < 0 → ∀ (script : List (Option (List Nat))) (w : Nat),
      generate_mif script (-2) d w = ("", -1)) := by
  constructor
  · intro sz hsz d hd
    have h1 : ¬ sz = -1 := by omega
    have h2 : ¬ sz = -2 := by omega
    simp [generate_mif_resolve, h1, h2, hd]
  · intro d hd script w
    have hres : generate_mif_resolve d (-2) = none := by
      simp [generate_mif_resolve, hd]
    rw [generate_mif, hres]

/-- Witness for the amended C3: a 10-byte regular file with unspecified
depth resolves to depth 10, and an unsizeable input with unspecified depth
makes `generate_mif` fail with no output. -/
theorem depth_resolver_uses_file_size_witness :
    generate_mif_resolve (-1) 10 = some 10 ∧
    generate_mif [] (-2) (-1) 16 = ("", -1) :=
  ⟨depth_resolver_uses_file_size.1 10 (by decide) (-1) (by decide),
   depth_resolver_uses_file_size.2 (-1) (by decide) [] 16⟩

/-- C4 counterexample: when the very first refill's underlying read reports
an error (depth 1, width 8), `generate_mif_content` returns 0 — the count
of addresses emitted so far — which is not negative, contradicting the
claim that a negative sentinel is returned on read failure. -/
theorem read_failure_counterexample :
    (generate_mif_content [none] 1 8).2 = 0 ∧
    ¬ (generate_mif_content [none] 1 8).2 < 0 := by
  refine ⟨rfl, by decide⟩

/-- C4 as amended: if a refill by the Word-Aligned Reader fails, emission
stops immediately and the (nonnegative) number of addresses already emitted
is returned to the caller — the same value a clean early stop produces, so
`ReadFailure` is not distinguished by a negative sentinel at this
interface. -/
theorem read_failure_returns_count (ws nwords aw fuel addr : Nat)
    (script : List (Option (List Nat))) (buffer pa : List Nat)
    (rem idx : Nat) (out : String)
    (h : read_aligned nwords ws (script.headD (some [])) buffer pa rem = none) :
    genLoop ws nwords aw (fuel + 1) addr script buffer pa rem 0 idx out =
      (out, (addr : Int)) ∧ 0 ≤ (addr : Int) := by
  have h2 := h
  simp only [List.headD_eq_head?_getD] at h2
  constructor
  · simp [genLoop, h2]
  · exact Int.natCast_nonneg addr

/-- Witness for the amended C4: a failing first read stops emission at
address 0 and returns 0. -/
theorem read_failure_returns_count_witness :
    genLoop 1 2 1 (0 + 1) 0 [none] [0, 0] [0] 0 0 0 "" = ("", (0 : Int)) ∧
    0 ≤ ((0 : Nat) : Int) :=
  read_failure_returns_count 1 2 1 0 0 [none] [0, 0] [0] 0 0 "" rfl

/-- C5: if a refill yields zero words with empty carry, the emitter stops
immediately and returns the number of addresses already emitted, which is
strictly less than the requested depth (`depth = addr + fuel + 1` for the
running loop); and concretely a 3-byte input with depth 4 and width 8
emits exactly the three records for addresses 0, 1, 2 and returns 3. -/
theorem emitter_stops_on_clean_eof :
    (∀ (ws nwords aw fuel addr : Nat) (script : List (Option (List Nat)))
      (buffer pa : List Nat) (rem idx : Nat) (out : String) (buf2 : List Nat),
      read_aligned nwords ws (script.headD (some [])) buffer pa rem =
        some (0, buf2, 0) →
      genLoop ws nwords aw (fuel + 1) addr script buffer pa rem 0 idx out =
        (out, (addr : Int)) ∧ (addr : Int) < ((addr + (fuel + 1) : Nat) : Int)) ∧
    generate_mif_content [some [170, 187, 204]] 4 8 =
      ("0 : aa;\n1 : bb;\n2 : cc;\n", 3) := by
  constructor
  · intro ws nwords aw fuel addr script buffer pa rem idx out buf2 h
    have h2 := h
    simp only [List.headD_eq_head?_getD] at h2
    refine ⟨by simp [genLoop, h2], ?_⟩
    push_cast
    omega
  · rfl

/-- Witness for C5: a fill returning zero words with zero remainder (empty
stream) stops the loop at address 0 with depth 1 pending. -/
theorem emitter_stops_on_clean_eof_witness :
    genLoop 1 2 1 (0 + 1) 0 [] [0, 0] [0] 0 0 0 "" = ("", (0 : Int)) ∧
    ((0 : Nat) : Int) < ((0 + (0 + 1) : Nat) : Int) :=
  emitter_stops_on_clean_eof.1 1 2 1 0 0 [] [0, 0] [0] 0 0 "" [0, 0] rfl

/-- C6: the claim requires an early stop (fewer words than requested, no
I/O error) to exit with a status distinct from success and from generation
failure.  The code violates this: in `main`, the `words_written != depth`
branch closes both descriptors and then — since `words_written ≥ 0` — falls
through to the cleanup section, whose `safe_close` calls are no-ops on the
already-closed descriptors, so the process exits 0 exactly as on success
(the defined `GENERATOR_EARLY_STOP` code 7 and its message are never used).
Generation failure still exits 6, shown for contrast. -/
theorem early_stop_exit_status :
    main_after_generate 3 4 5 7 false (fun _ => true) = 0 ∧
    main_after_generate 4 4 5 7 false (fun _ => true) = 0 ∧
    main_after_generate (-1) 4 5 7 false (fun _ => true) = 6 := by
  refine ⟨rfl, rfl, rfl⟩

/-- C7: the address digit width `num_len(depth - 1, 16)` is computed once,
and for every address in `[0, depth)` the formatted address `%0*llx` has
exactly that many characters (zero-padded, never truncated); in particular
depth 1 gives digit width 1 and depth 256 gives digit width 2. -/
theorem address_width_stable :
    (∀ depth : Nat, 1 ≤ depth → ∀ a : Nat, a < depth →
      (fmtHex a (num_len (depth - 1) 16)).length = num_len (depth - 1) 16) ∧
    num_len 0 16 = 1 ∧ num_len 255 16 = 2 := by
  refine ⟨?_, by decide, by decide⟩
  intro depth hd a ha
  have h1 : (hexStr a).length ≤ num_len (depth - 1) 16 := by
    rw [hexStr_length, num_len_eq_log]
    have := Nat.log_mono_right (b := 16) (show a ≤ depth - 1 by omega)
    omega
  exact fmtHex_length a _ h1

/-- Witness for C7 at depth 256, address 255: the formatted address has
exactly the precomputed digit width (2). -/
theorem address_width_stable_witness :
    (fmtHex 255 (num_len (256 - 1) 16)).length = num_len (256 - 1) 16 :=
  address_width_stable.1 256 (by decide) 255 (by decide)

/-- C8: the word-value field written by the emitter's byte loop equals the
concatenation, from the last byte index down to the first, of two-digit
zero-padded lowercase hex pairs with no separator (the spec-side
`format_word_bytes_spec`), terminated by ";\n"; each pair has exactly two
digits for byte values; and word bytes `[0x12, 0x34]` produce "3412". -/
theorem word_field_last_byte_first :
    (∀ w : List Nat, w ≠ [] →
      wordFieldFrom w w.length = format_word_bytes_spec w ++ ";\n") ∧
    (∀ b : Nat, b < 256 → (hexPair b).length = 2) ∧
    format_word_bytes_spec [18, 52] = "3412" := by
  refine ⟨?_, ?_, by decide⟩
  · intro w hw
    have hpos : 0 < w.length := List.length_pos.mpr hw
    have h1 : w.length - 1 < w.length := by omega
    have := wordFieldFrom_take w (w.length - 1) h1
    rw [show w.length - 1 + 1 = w.length by omega] at this
    rw [this]
    congr 1
    congr 1
    simp
  · intro b hb
    apply fmtHex_length
    rw [hexStr_length]
    have hlog : Nat.log 16 b ≤ 1 := by
      by_cases h0 : b = 0
      · simp [h0, Nat.log_zero_right]
      · have := Nat.log_lt_of_lt_pow h0 (show b < 16 ^ 2 by omega)
        omega
    omega

/-- Witness for C8: the emitter's byte loop on the word `[0x12, 0x34]`
produces the spec-side rendering followed by ";\n", and a concrete byte
formats to exactly two digits. -/
theorem word_field_last_byte_first_witness :
    wordFieldFrom [18, 52] 2 = format_word_bytes_spec [18, 52] ++ ";\n" ∧
    (hexPair 171).length = 2 :=
  ⟨word_field_last_byte_first.1 [18, 52] (by decide),
   word_field_last_byte_first.2.1 171 (by decide)⟩

/-- C9: nothing validates that `width` is a positive multiple of 8: the
only check ever applied to the width argument is `str_to_byte`'s byte-range
check, which accepts 3 and 12; for every width in `[1, 7]` the word size
`width / 8` computed by the emitter is 0 — this 0 is the divisor of the
`/ word_size` and `% word_size` expressions inside `read_aligned`, a
division by zero in C — and a width that is not a multiple of 8 is
silently truncated (`word_size * 8 = width - width % 8`); the final
conjunct records that `generate_mif_content` really drives its loop with
that word size. -/
theorem width_never_validated :
    (∀ w : Nat, 1 ≤ w → w ≤ 7 → content_word_size w = 0) ∧
    (∀ w : Nat, content_word_size w * 8 = w - w % 8) ∧
    (str_to_byte_check 3 = some 3 ∧ str_to_byte_check 12 = some 12) ∧
    (∀ (script : List (Option (List Nat))) (depth w : Nat),
      generate_mif_content script depth w =
        genLoop (content_word_size w) INPUT_BUFFER_SIZE (num_len (depth - 1) 16)
          depth 0 script (List.replicate (INPUT_BUFFER_SIZE * content_word_size w) 0)
          (List.replicate (content_word_size w) 0) 0 0 0 "") := by
  refine ⟨?_, ?_, by decide, fun script depth w => rfl⟩
  · intro w hw1 hw7
    unfold content_word_size
    omega
  · intro w
    unfold content_word_size
    omega

/-- Witness for C9 at width 3 (word size 0) and width 12 (silently
truncated to word size 1, i.e. effective width 8). -/
theorem width_never_validated_witness :
    content_word_size 3 = 0 ∧ content_word_size 12 * 8 = 12 - 12 % 8 :=
  ⟨width_never_validated.1 3 (by decide) (by decide),
   width_never_validated.2.1 12⟩

/-- C10: `safe_close` on a non-null descriptor pointer stores -1 after any
call, and a subsequent call on the stored value returns true with the ghost
"performed a close" flag false (no second `close`); consequently, in the
early-stop path of `main` — where both descriptors were already closed —
the cleanup-section `safe_close` calls are no-ops and the exit status is
independent of how `close` would behave. -/
theorem safe_close_idempotent :
    (∀ (f : Int → Bool) (fd : Int),
      (safe_close f fd).2.1 = -1 ∧
      safe_close f ((safe_close f fd).2.1) = (true, -1, false)) ∧
    (∀ (ww depth i o : Int) (n : Bool) (f : Int → Bool), ww ≠ depth →
      main_after_generate ww depth i o n f = if ww < 0 then 6 else 0) := by
  constructor
  · intro f fd
    by_cases h : fd = -1 <;> simp [safe_close, h]
  · intro ww depth i o n f h
    have hi : (safe_close f i).2.1 = -1 := by
      by_cases hh : i = -1 <;> simp [safe_close, hh]
    have ho : (safe_close f o).2.1 = -1 := by
      by_cases hh : o = -1 <;> simp [safe_close, hh]
    have hclose : safe_close f (-1) = (true, -1, false) := by simp [safe_close]
    by_cases hw : ww < 0
    · simp [main_after_generate, h, hw]
    · simp only [main_after_generate]
      simp [h, hw, hi, ho, hclose]

/-- Witness for C10's main-cleanup consequence: an early stop (3 of 4 words)
exits 0 even when every real `close` would fail, because the cleanup closes
never run. -/
theorem safe_close_idempotent_witness :
    main_after_generate 3 4 5 7 false (fun _ => false) =
      if (3 : Int) < 0 then 6 else 0 :=
  safe_close_idempotent.2 3 4 5 7 false (fun _ => false) (by decide)

end Bin2Mif
